import Mathlib

/-!
# Verification of the star-forge timeline composition and export pipeline

Shallow embedding of the timeline model (`src/stores/timeline.ts`,
`src/components/Timeline.vue`), the export job store (`src/stores/export.ts`),
the export planner (`electron/main.ts`, `ffmpeg:exportTimeline` handler) and
the playback coordinator (playback store).

Times are modelled as rationals (`ℚ`): the claims under scrutiny are exact
arithmetic identities on the values the code computes.  Where a claim is
specifically about JavaScript `NaN`/`Infinity` semantics, a dedicated `JSNum`
type embeds IEEE special-value behaviour of the exact operations the code
uses (`Math.max`, `+`, `<=`, `isFinite`, truthiness).

Cosmetic fields (thumbnails, filmstrip frames, loading flags) are omitted
from the segment structure: the code never reads them in any time
arithmetic, and the spec marks them as not load-bearing.
-/

namespace StarForge

/-- A timeline segment, from `TimelineClip` in `src/stores/timeline.ts`
(cosmetic thumbnail fields omitted). -/
structure Clip where
  id : String
  clipId : String
  name : String
  startTime : ℚ
  duration : ℚ
  trimStart : ℚ
  trimEnd : ℚ
  track : Int
  deriving DecidableEq, Repr

/-- Comparator order used by `sortClipsByStartTime`:
`clips.value.sort((a, b) => a.startTime - b.startTime)`.
JavaScript `Array.prototype.sort` is stable, so for this consistent
comparator the result is the unique stable ascending order by `startTime`,
i.e. a stable insertion sort by `≤` on `startTime`. -/
def byStart (a b : Clip) : Prop := a.startTime ≤ b.startTime

instance : DecidableRel byStart := fun a b =>
  inferInstanceAs (Decidable (a.startTime ≤ b.startTime))

instance : IsTotal Clip byStart := ⟨fun a b => le_total a.startTime b.startTime⟩

instance : IsTrans Clip byStart := ⟨fun _ _ _ h h' => le_trans h h'⟩

/-- Translation of `sortClipsByStartTime` from `src/stores/timeline.ts` (lines 55-57). -/
def sortClipsByStartTime (cs : List Clip) : List Clip :=
  List.insertionSort byStart cs

/-- The `forEach` reassignment loop inside `reorderClips`: starting from the
running time `t`, each clip's `startTime` is set to `t` and `t` advances by
the clip's duration. -/
def assignStarts (t : ℚ) : List Clip → List Clip
  | [] => []
  | c :: rest => { c with startTime := t } :: assignStarts (t + c.duration) rest

/-- Translation of `reorderClips` from `src/stores/timeline.ts` (lines 99-107): sort by
`startTime`, then reassign contiguous `startTime`s from 0. -/
def reorderClips (cs : List Clip) : List Clip :=
  assignStarts 0 (sortClipsByStartTime cs)

/-- Translation of `removeClipFromTimeline` from `src/stores/timeline.ts` (lines 40-45):
`findIndex` + `splice(index, 1)` removes the first clip with the given id,
and is a no-op when the id is absent. -/
def removeClipFromTimeline (id : String) : List Clip → List Clip
  | [] => []
  | c :: rest => if c.id == id then rest else c :: removeClipFromTimeline id rest

/-- Translation of `addClipToTimeline` from `src/stores/timeline.ts` (lines 35-38):
push, then `sortClipsByStartTime`. -/
def addClipToTimeline (cs : List Clip) (c : Clip) : List Clip :=
  sortClipsByStartTime (cs ++ [c])

/-- Translation of `totalDuration` from `src/stores/timeline.ts` (lines 27-33), restricted
to finite values: 0 when empty, else `reduce` of `Math.max(max, startTime +
duration)` with accumulator 0.  (`totalDurationJS` below embeds the same
reduce over full JavaScript number semantics.) -/
def totalDuration (cs : List Clip) : ℚ :=
  if cs = [] then 0
  else cs.foldl (fun m c => max m (c.startTime + c.duration)) 0

/-- Constant `MIN_SPLIT_DISTANCE` from `src/components/Timeline.vue` (line 15). -/
def MIN_SPLIT_DISTANCE : ℚ := 1/10

/-- Translation of `removeClip` from `src/components/Timeline.vue` (lines 330-334):
removal from the timeline always followed by `reorderClips`. -/
def removeClip (id : String) (cs : List Clip) : List Clip :=
  reorderClips (removeClipFromTimeline id cs)

/-- Translation of `splitClipAtPlayhead` from `src/components/Timeline.vue` (lines 561-627).
The two fresh random ids produced by `generateClipId` are parameters.
Thumbnail partitioning (`splitThumbnailFrames`) is cosmetic and omitted. -/
def splitClipAtPlayhead (id1 id2 : String) (currentTime : ℚ) (cs : List Clip) :
    List Clip :=
  match cs.find? (fun c =>
      decide (c.startTime ≤ currentTime ∧
        currentTime < c.startTime + c.duration)) with
  | none => cs
  | some clipToSplit =>
    let splitTimeInClip := currentTime - clipToSplit.startTime
    if splitTimeInClip ≤ MIN_SPLIT_DISTANCE ∨
        clipToSplit.duration - MIN_SPLIT_DISTANCE ≤ splitTimeInClip then
      cs
    else
      let clip1Duration := splitTimeInClip
      let clip2Duration := clipToSplit.duration - splitTimeInClip
      let clip1 : Clip :=
        { id := id1
          clipId := clipToSplit.clipId
          name := clipToSplit.name ++ " (1)"
          startTime := clipToSplit.startTime
          duration := clip1Duration
          trimStart := clipToSplit.trimStart
          trimEnd := clipToSplit.trimStart + clip1Duration
          track := clipToSplit.track }
      let clip2 : Clip :=
        { id := id2
          clipId := clipToSplit.clipId
          name := clipToSplit.name ++ " (2)"
          startTime := clipToSplit.startTime + clip1Duration
          duration := clip2Duration
          trimStart := clipToSplit.trimStart + clip1Duration
          trimEnd := clipToSplit.trimEnd
          track := clipToSplit.track }
      reorderClips
        (addClipToTimeline (addClipToTimeline
          (removeClipFromTimeline clipToSplit.id cs) clip1) clip2)

/-! ## JavaScript number semantics

`JSNum` embeds the IEEE special values the code can meet (`NaN`,
`±Infinity`) alongside exact finite values, with exactly the operations the
translated functions use. -/

/-- A JavaScript number: a finite value or one of the special values. -/
inductive JSNum where
  | finite (q : ℚ)
  | nan
  | inf
  | ninf
  deriving DecidableEq, Repr

/-- JavaScript `+` on numbers. -/
def jsAdd : JSNum → JSNum → JSNum
  | .nan, _ => .nan
  | _, .nan => .nan
  | .inf, .ninf => .nan
  | .ninf, .inf => .nan
  | .inf, _ => .inf
  | _, .inf => .inf
  | .ninf, _ => .ninf
  | _, .ninf => .ninf
  | .finite a, .finite b => .finite (a + b)

/-- JavaScript `Math.max`: `NaN` if either argument is `NaN`. -/
def jsMax : JSNum → JSNum → JSNum
  | .nan, _ => .nan
  | _, .nan => .nan
  | .inf, _ => .inf
  | _, .inf => .inf
  | .ninf, b => b
  | a, .ninf => a
  | .finite a, .finite b => .finite (max a b)

/-- JavaScript `<=` on numbers: false whenever `NaN` is involved. -/
def jsLe : JSNum → JSNum → Bool
  | .nan, _ => false
  | _, .nan => false
  | .ninf, _ => true
  | _, .inf => true
  | .inf, .ninf => false
  | .inf, .finite _ => false
  | .finite _, .ninf => false
  | .finite a, .finite b => a ≤ b

/-- JavaScript `isFinite`. -/
def JSNum.isFinite : JSNum → Bool
  | .finite _ => true
  | _ => false

/-- JavaScript truthiness of a number: `0` and `NaN` are falsy. -/
def jsTruthy : JSNum → Bool
  | .finite q => q != 0
  | .nan => false
  | _ => true

/-- A timeline segment whose time fields carry full JavaScript number
semantics; only the fields read by `totalDuration` are needed. -/
structure JSClip where
  startTime : JSNum
  duration : JSNum
  deriving DecidableEq, Repr

/-- View of a finite-valued segment as a JavaScript-number segment. -/
def Clip.toJSClip (c : Clip) : JSClip :=
  { startTime := .finite c.startTime, duration := .finite c.duration }

/-- Translation of `totalDuration` from `src/stores/timeline.ts` (lines 27-33) over full
JavaScript number semantics: 0 when empty, else
`reduce((max, clip) => Math.max(max, clip.startTime + clip.duration), 0)`. -/
def totalDurationJS (cs : List JSClip) : JSNum :=
  if cs = [] then .finite 0
  else cs.foldl (fun m c => jsMax m (jsAdd c.startTime c.duration)) (.finite 0)

/-- Result of a media-library drop on the timeline: either the insertion is
refused (invalid duration: the code alerts and returns without touching the
timeline, which the spec names `InvalidDurationError`), or the clip list
after insertion. -/
inductive HandleDropResult where
  | invalidDuration (cs : List Clip)
  | added (cs : List Clip)
  deriving DecidableEq, Repr

/-- Translation of `handleDrop` from `src/components/Timeline.vue` (lines 260-290), the
timeline-mutating core: validate
`!clip.duration || clip.duration <= 0 || !isFinite(clip.duration)` (refuse
and leave the timeline unchanged when it fails), else create a segment with
`startTime = totalDuration`, full-length trim, `addClipToTimeline`, then
`reorderClips`.  The fresh id from `generateClipId` is a parameter;
thumbnail generation is asynchronous cosmetic work and omitted. -/
def handleDrop (newId assetId assetName : String) (assetDuration : JSNum)
    (cs : List Clip) : HandleDropResult :=
  if !(jsTruthy assetDuration) || jsLe assetDuration (.finite 0)
      || !(assetDuration.isFinite) then
    .invalidDuration cs
  else
    match assetDuration with
    | .finite q =>
      let startTime := totalDuration cs
      let timelineClip : Clip :=
        { id := newId
          clipId := assetId
          name := assetName
          startTime := startTime
          duration := q
          trimStart := 0
          trimEnd := q
          track := 0 }
      .added (reorderClips (addClipToTimeline cs timelineClip))
    | _ => .invalidDuration cs  -- unreachable: the guard admits only finite durations

/-- The clip list a drop result carries. -/
def HandleDropResult.clips : HandleDropResult → List Clip
  | .invalidDuration cs => cs
  | .added cs => cs

/-- Translation of `handleClipDrop` from `src/components/Timeline.vue` (lines 364-395):
drag-reorder swaps the `startTime`s of the dragged and target clips (the
source mutates the two found objects; with unique ids this is the id-keyed
update below), then `reorderClips`. -/
def handleClipDrop (draggedId targetId : String) (cs : List Clip) : List Clip :=
  if draggedId == targetId then cs
  else
    match cs.find? (fun c => c.id == draggedId),
        cs.find? (fun c => c.id == targetId) with
    | some draggedClip, some targetClip =>
      reorderClips (cs.map (fun c =>
        if c.id == draggedId then { c with startTime := targetClip.startTime }
        else if c.id == targetId then { c with startTime := draggedClip.startTime }
        else c))
    | _, _ => cs

/-! ## Export job store (`src/stores/export.ts`) -/

/-- The export store's job-related state (`src/stores/export.ts`, lines
11-16; the static `settings` record takes no part in the claims). -/
structure ExportState where
  isExporting : Bool
  exportProgress : ℚ
  exportError : Option String
  lastExportPath : Option String
  exportJobName : String
  isBackgroundExport : Bool
  deriving DecidableEq, Repr

/-- The store's initial state (`src/stores/export.ts`, lines 11-16). -/
def initialExportState : ExportState :=
  { isExporting := false
    exportProgress := 0
    exportError := none
    lastExportPath := none
    exportJobName := ""
    isBackgroundExport := false }

/-- Translation of `startExport` from `src/stores/export.ts` (lines 24-31). -/
def startExport (jobName : String) (background : Bool) (s : ExportState) :
    ExportState :=
  { s with
    isExporting := true
    exportProgress := 0
    exportError := none
    exportJobName := jobName
    isBackgroundExport := background
    lastExportPath := none }

/-- Translation of `updateProgress` from `src/stores/export.ts` (lines 33-35):
`exportProgress.value = Math.max(0, Math.min(progress, 100))`. -/
def updateProgress (progress : ℚ) (s : ExportState) : ExportState :=
  { s with exportProgress := max 0 (min progress 100) }

/-- The displayed percentage after a sequence of progress events is applied
in order, each through `updateProgress`
(`ipcRenderer.on('export:progress', ...)` in
`src/components/ExportDialog.vue`, lines 48-50). -/
def applyProgressEvents (s : ExportState) (events : List ℚ) : ExportState :=
  events.foldl (fun st e => updateProgress e st) s

/-! ## Export planner (`electron/main.ts`, `ffmpeg:exportTimeline` handler) -/

/-- One clip record of the `ffmpeg:exportTimeline` payload
(`electron/main.ts`, lines 901-907), as built by `handleTimelineExport` in
`src/components/ExportDialog.vue` (lines 100-108). -/
structure ExportClip where
  sourceFilePath : String
  trimStart : ℚ
  trimEnd : ℚ
  duration : ℚ
  deriving DecidableEq, Repr

/-- Embeds `Array.from(new Set(...))` (`electron/main.ts`, line 916): deduplication
preserving first-occurrence order. -/
def uniqueInOrder (paths : List String) : List String :=
  paths.foldl (fun acc p => if p ∈ acc then acc else acc ++ [p]) []

/-- One entry of the `filter_complex` the handler assembles
(`electron/main.ts`, lines 991-1027), with the numeric parameters the code
interpolates into the filter strings. -/
inductive FilterPart where
  /-- Chain `[i:v]trim=start=..:end=..,setpts=PTS-STARTPTS,scale=w:h:...,pad=...,
  fps=..,setsar=1,format=yuv420p[vI]` -/
  | video (inputIndex : Nat) (trimStart trimEnd : ℚ) (width height fps : Nat)
      (label : Nat)
  /-- Chain `[i:a]atrim=start=..:end=..,asetpts=PTS-STARTPTS,
  aformat=sample_rates=48000:channel_layouts=stereo[aI]` -/
  | audioTrim (inputIndex : Nat) (trimStart trimEnd : ℚ) (sampleRate : Nat)
      (stereo : Bool) (label : Nat)
  /-- Chain `anullsrc=channel_layout=stereo:sample_rate=48000,
  atrim=duration=..[aI]` -/
  | audioSilent (sampleRate : Nat) (stereo : Bool) (duration : ℚ) (label : Nat)
  /-- Chain `[v0][a0]...concat=n=..:v=1:a=1[vout][aout]` -/
  | concat (n : Nat)
  deriving DecidableEq, Repr

/-- Whether a filter part is one of the per-segment audio chains. -/
def FilterPart.isAudio : FilterPart → Bool
  | .audioTrim .. => true
  | .audioSilent .. => true
  | _ => false

/-- The two filter parts pushed for clip number `clipIndex`
(`electron/main.ts`, lines 994-1019): the video normalization chain, and
either the audio trim chain (source has an audio stream) or a synthesized
silent audio source `anullsrc=channel_layout=stereo:sample_rate=48000,
atrim=duration=${clip.duration}`. -/
def clipFilterParts (uniqueFiles : List String) (hasAudio : String → Bool)
    (targetWidth targetHeight targetFps : Nat) (clip : ExportClip)
    (clipIndex : Nat) : List FilterPart :=
  let inputIndex := uniqueFiles.indexOf clip.sourceFilePath
  [FilterPart.video inputIndex clip.trimStart clip.trimEnd
      targetWidth targetHeight targetFps clipIndex,
   if hasAudio clip.sourceFilePath then
     FilterPart.audioTrim inputIndex clip.trimStart clip.trimEnd 48000 true
       clipIndex
   else
     FilterPart.audioSilent 48000 true clip.duration clipIndex]

/-- The full `filterParts` list (`electron/main.ts`, lines 991-1027): the
per-clip parts in clip order followed by the concat filter.  `hasAudio`
stands for the per-file ffprobe result (`fileMetadata`). -/
def buildFilterParts (hasAudio : String → Bool)
    (targetWidth targetHeight targetFps : Nat) (clips : List ExportClip) :
    List FilterPart :=
  let uniqueFiles := uniqueInOrder (clips.map (·.sourceFilePath))
  clips.enum.flatMap (fun p =>
    clipFilterParts uniqueFiles hasAudio targetWidth targetHeight targetFps
      p.2 p.1) ++ [FilterPart.concat clips.length]

/-- The audio chains of a plan, in order. -/
def audioParts (plan : List FilterPart) : List FilterPart :=
  plan.filter FilterPart.isAudio

/-- Outcome of the `ffmpeg:exportTimeline` handler up to the point the
transcoder is launched (`electron/main.ts`, lines 912-1067).  The output
conflict check rejects *before* the per-file ffprobe spawns and the ffmpeg
spawn; `started` records, in order, the subprocess spawns the handler then
performs (one ffprobe per unique input file, then ffmpeg). -/
inductive ExportOutcome where
  | outputConflict (conflictingInput : String)
  | started (probedFiles : List String) (plan : List FilterPart)
  deriving DecidableEq, Repr

/-- The subprocesses an outcome spawns, in order. -/
def ExportOutcome.spawned : ExportOutcome → List String
  | .outputConflict _ => []
  | .started probedFiles _ => (probedFiles.map ("ffprobe " ++ ·)) ++ ["ffmpeg"]

/-- The `ffmpeg:exportTimeline` handler (`electron/main.ts`, lines 900-1067)
up to process launch: build `uniqueFiles`, compare the normalized
lower-cased output path against each normalized lower-cased input path
(lines 923-936) and reject on a match; otherwise probe each unique file and
assemble the filter graph.  `pathNormalize` stands for Node's
`path.normalize`; `hasAudio` for the ffprobe stream query. -/
def exportTimeline (pathNormalize : String → String)
    (hasAudio : String → Bool) (clips : List ExportClip)
    (outputPath : String) (targetWidth targetHeight targetFps : Nat) :
    ExportOutcome :=
  let uniqueFiles := uniqueInOrder (clips.map (·.sourceFilePath))
  let normalizedOutput := pathNormalize outputPath.toLower
  match uniqueFiles.find?
      (fun inputFile => pathNormalize inputFile.toLower == normalizedOutput) with
  | some conflictingInput => .outputConflict conflictingInput
  | none =>
    .started uniqueFiles
      (buildFilterParts hasAudio targetWidth targetHeight targetFps clips)

/-! ## Playback coordinator (playback store) -/

/-- A media-library source clip, reduced to what the playback coordinator
reads (`clipStore.getClipById(...).path`). -/
structure SourceClip where
  id : String
  path : String
  deriving DecidableEq, Repr

/-- The playback store's state (playback store, lines 28-46). -/
structure PlaybackState where
  isPlaying : Bool
  currentTime : ℚ
  currentClipIndex : Int
  currentVideoSource : Option String
  currentVideoStartTime : ℚ
  currentVideoEndTime : ℚ
  isLoadingClip : Bool
  deriving DecidableEq, Repr

/-- Translation of `clipStore.getClipById`: first source clip with the given id. -/
def getClipById (sources : List SourceClip) (id : String) : Option SourceClip :=
  sources.find? (fun s => s.id == id)

/-- The `currentTimelineClip` computed (playback store, lines 53-56):
`null` for the sentinel `-1`, else `timelineStore.clips[index]`. -/
def currentTimelineClip (clips : List Clip) (s : PlaybackState) : Option Clip :=
  if s.currentClipIndex = -1 then none
  else clips[s.currentClipIndex.toNat]?

/-- Translation of `stop` (playback store, lines 110-114). -/
def stopPlayback (s : PlaybackState) : PlaybackState :=
  { s with
    isPlaying := false
    currentClipIndex := -1
    currentVideoSource := none }

/-- Translation of `loadCurrentClip` (playback store, lines 176-195): when the current
timeline clip and its source exist, set the loading flag and point the
video at the source, starting at `trimStart + max(0, currentTime -
startTime)` and ending at `trimEnd`; otherwise log an error and leave the
state unchanged. -/
def loadCurrentClip (clips : List Clip) (sources : List SourceClip)
    (s : PlaybackState) : PlaybackState :=
  match currentTimelineClip clips s with
  | none => s
  | some timelineClip =>
    match getClipById sources timelineClip.clipId with
    | none => s
    | some sourceClip =>
      let timeInTimeline := s.currentTime - timelineClip.startTime
      let startTimeInSource := timelineClip.trimStart + max 0 timeInTimeline
      { s with
        isLoadingClip := true
        currentVideoSource := some sourceClip.path
        currentVideoStartTime := startTimeInSource
        currentVideoEndTime := timelineClip.trimEnd }

/-- Translation of `advanceToNextClip` (playback store, lines 207-222): step to index
`current + 1`; past the end of the timeline, stop; otherwise set
`currentTime` to the next clip's `startTime` and load it. -/
def advanceToNextClip (clips : List Clip) (sources : List SourceClip)
    (s : PlaybackState) : PlaybackState :=
  let nextIndex := s.currentClipIndex + 1
  if nextIndex ≥ (clips.length : Int) then
    stopPlayback s
  else
    match clips[nextIndex.toNat]? with
    | none => stopPlayback s  -- unreachable when nextIndex is in bounds
    | some nextClip =>
      loadCurrentClip clips sources
        { s with
          currentClipIndex := nextIndex
          currentTime := nextClip.startTime }

/-- The cut-away tolerance: `videoTime >= currentVideoEndTime.value - 0.05`
(playback store, line 164). -/
def EPSILON : ℚ := 1/20

/-- Translation of `updateTime` (playback store, lines 149-167): ignore the report unless
playing with a current clip and not loading; map the source time to
timeline time via `startTime + (videoTime - trimStart)`; when the source
time reaches `currentVideoEndTime - EPSILON`, advance to the next clip. -/
def updateTime (clips : List Clip) (sources : List SourceClip)
    (videoTime : ℚ) (s : PlaybackState) : PlaybackState :=
  if !s.isPlaying then s
  else
    match currentTimelineClip clips s with
    | none => s
    | some clip =>
      if s.isLoadingClip then s
      else
        let timeFromTrimStart := videoTime - clip.trimStart
        let timelineTime := clip.startTime + timeFromTrimStart
        let s1 := { s with currentTime := timelineTime }
        if videoTime ≥ s.currentVideoEndTime - EPSILON then
          advanceToNextClip clips sources s1
        else
          s1

/-! ## Invariant predicates -/

/-- The segments starting at `t` are contiguous: each segment starts where
the running time stands, which then advances by its duration. -/
def contiguousFrom : ℚ → List Clip → Prop
  | _, [] => True
  | t, c :: rest => c.startTime = t ∧ contiguousFrom (t + c.duration) rest

instance contiguousFrom.dec : (t : ℚ) → (cs : List Clip) →
    Decidable (contiguousFrom t cs)
  | _, [] => .isTrue trivial
  | t, c :: rest =>
    have : Decidable (contiguousFrom (t + c.duration) rest) :=
      contiguousFrom.dec _ rest
    decidable_of_iff (c.startTime = t ∧ contiguousFrom (t + c.duration) rest)
      Iff.rfl

/-- The claim's gap/overlap-freedom, stated by index: the first segment
starts at 0 and `segments[i+1].startTime =
segments[i].startTime + segments[i].duration` for every adjacent pair. -/
def gapFree (cs : List Clip) : Prop :=
  (∀ h0 : 0 < cs.length, (cs.get ⟨0, h0⟩).startTime = 0) ∧
  ∀ i, (h : i + 1 < cs.length) →
    (cs.get ⟨i + 1, h⟩).startTime =
      (cs.get ⟨i, Nat.lt_of_succ_lt h⟩).startTime +
        (cs.get ⟨i, Nat.lt_of_succ_lt h⟩).duration

/-- Well-formedness of a reachable timeline: segments are packed
contiguously from 0 and every duration is positive. -/
def Wf (cs : List Clip) : Prop :=
  contiguousFrom 0 cs ∧ ∀ c ∈ cs, 0 < c.duration

instance : DecidablePred Wf := fun cs =>
  inferInstanceAs (Decidable (contiguousFrom 0 cs ∧ ∀ c ∈ cs, 0 < c.duration))

/-- Sum of the segments' durations. -/
def sumDurations (cs : List Clip) : ℚ :=
  (cs.map (·.duration)).sum

/-- The identifying fields of a segment — everything except `startTime`. -/
def frame (c : Clip) : String × String × String × ℚ × ℚ × ℚ × Int :=
  (c.id, c.clipId, c.name, c.duration, c.trimStart, c.trimEnd, c.track)

/-- Conclusion of a successful split of the clip `c` found at playhead `t`:
the two halves reference the same asset, carry the trim windows
`[trimStart, trimStart+ofs]` and `[trimStart+ofs, trimEnd]` (where
`ofs = t - c.startTime` is the local offset), their durations sum to the
original duration, the remainder of the timeline is exactly the original
minus `c`, and (under unique ids) no segment with the original id
survives. -/
def SplitSpec (cs : List Clip) (c : Clip) (t : ℚ) (id1 id2 : String) : Prop :=
  (t - c.startTime) + (c.duration - (t - c.startTime)) = c.duration ∧
  List.Perm ((splitClipAtPlayhead id1 id2 t cs).map frame)
    ((id1, c.clipId, c.name ++ " (1)", t - c.startTime, c.trimStart,
        c.trimStart + (t - c.startTime), c.track) ::
      (id2, c.clipId, c.name ++ " (2)", c.duration - (t - c.startTime),
        c.trimStart + (t - c.startTime), c.trimEnd, c.track) ::
      (removeClipFromTimeline c.id cs).map frame) ∧
  ((cs.map (·.id)).Nodup → id1 ≠ c.id → id2 ≠ c.id →
    ∀ x ∈ splitClipAtPlayhead id1 id2 t cs, x.id ≠ c.id)

/-! ## Sample data used by witnesses -/

/-- A packed two-segment timeline. -/
def sampleA : Clip :=
  { id := "a", clipId := "srcA", name := "A", startTime := 0, duration := 5,
    trimStart := 0, trimEnd := 5, track := 0 }

def sampleB : Clip :=
  { id := "b", clipId := "srcB", name := "B", startTime := 5, duration := 3,
    trimStart := 0, trimEnd := 3, track := 0 }

def sampleTimeline : List Clip := [sampleA, sampleB]

/-- A one-segment timeline holding a full 10-second asset. -/
def scenarioBClip : Clip :=
  { id := "orig", clipId := "src", name := "C", startTime := 0, duration := 10,
    trimStart := 0, trimEnd := 10, track := 0 }

def scenarioBTimeline : List Clip := [scenarioBClip]

/-- Media-library source clips matching `sampleTimeline`'s references. -/
def sampleSources : List SourceClip :=
  [{ id := "srcA", path := "a.mp4" }, { id := "srcB", path := "b.mp4" }]

/-- A playback state sitting near the end of `sampleA`'s trim window. -/
def samplePlayback : PlaybackState :=
  { isPlaying := true
    currentTime := 49/10
    currentClipIndex := 0
    currentVideoSource := some "a.mp4"
    currentVideoStartTime := 0
    currentVideoEndTime := 5
    isLoadingClip := false }

/-! ## Lemmas about sorting and repacking -/

theorem assignStarts_contiguous (cs : List Clip) (t : ℚ) :
    contiguousFrom t (assignStarts t cs) := by
  induction cs generalizing t with
  | nil => trivial
  | cons c rest ih => exact ⟨rfl, ih _⟩

theorem assignStarts_map_frame (cs : List Clip) (t : ℚ) :
    (assignStarts t cs).map frame = cs.map frame := by
  induction cs generalizing t with
  | nil => rfl
  | cons c rest ih => simp [assignStarts, frame, ih]

theorem assignStarts_map_duration (cs : List Clip) (t : ℚ) :
    (assignStarts t cs).map (·.duration) = cs.map (·.duration) := by
  induction cs generalizing t with
  | nil => rfl
  | cons c rest ih => simp [assignStarts, ih]

theorem assignStarts_append (xs ys : List Clip) (t : ℚ) :
    assignStarts t (xs ++ ys) =
      assignStarts t xs ++ assignStarts (t + sumDurations xs) ys := by
  induction xs generalizing t with
  | nil => simp [assignStarts, sumDurations]
  | cons c rest ih =>
    have hs : t + sumDurations (c :: rest) = (t + c.duration) + sumDurations rest := by
      simp only [sumDurations, List.map_cons, List.sum_cons]
      ring
    simp only [List.cons_append, assignStarts, hs, List.cons.injEq, true_and]
    exact ih (t + c.duration)

theorem contiguousFrom_assignStarts_eq {cs : List Clip} {t : ℚ}
    (h : contiguousFrom t cs) : assignStarts t cs = cs := by
  induction cs generalizing t with
  | nil => rfl
  | cons c rest ih =>
    obtain ⟨h1, h2⟩ := h
    simp only [assignStarts, ih h2, List.cons.injEq, and_true]
    cases c
    simpa using h1.symm

theorem contiguousFrom_le_startTime {cs : List Clip} {t : ℚ}
    (h : contiguousFrom t cs) (hd : ∀ c ∈ cs, 0 ≤ c.duration) :
    ∀ c ∈ cs, t ≤ c.startTime := by
  induction cs generalizing t with
  | nil => simp
  | cons c rest ih =>
    obtain ⟨h1, h2⟩ := h
    intro x hx
    rcases List.mem_cons.1 hx with heq | hx
    · rw [heq]
      exact le_of_eq h1.symm
    · calc t ≤ t + c.duration := le_add_of_nonneg_right (hd c (by simp))
        _ ≤ x.startTime := ih h2 (fun y hy => hd y (by simp [hy])) x hx

theorem contiguousFrom_sorted {cs : List Clip} {t : ℚ}
    (h : contiguousFrom t cs) (hd : ∀ c ∈ cs, 0 ≤ c.duration) :
    List.Sorted byStart cs := by
  induction cs generalizing t with
  | nil => exact List.sorted_nil
  | cons c rest ih =>
    obtain ⟨h1, h2⟩ := h
    rw [List.sorted_cons]
    refine ⟨?_, ih h2 (fun y hy => hd y (by simp [hy]))⟩
    intro b hb
    have hb' := contiguousFrom_le_startTime h2
      (fun y hy => hd y (by simp [hy])) b hb
    show c.startTime ≤ b.startTime
    calc c.startTime = t := h1
      _ ≤ t + c.duration := le_add_of_nonneg_right (hd c (by simp))
      _ ≤ b.startTime := hb'

theorem contiguousFrom_startTime_le_sum {cs : List Clip} {t : ℚ}
    (h : contiguousFrom t cs) (hd : ∀ c ∈ cs, 0 ≤ c.duration) :
    ∀ c ∈ cs, c.startTime ≤ t + sumDurations cs := by
  induction cs generalizing t with
  | nil => simp
  | cons c rest ih =>
    obtain ⟨h1, h2⟩ := h
    intro x hx
    have hsum : 0 ≤ sumDurations rest := by
      apply List.sum_nonneg
      intro q hq
      obtain ⟨y, hy, rfl⟩ := List.mem_map.1 hq
      exact hd y (by simp [hy])
    have hs : sumDurations (c :: rest) = c.duration + sumDurations rest := by
      simp [sumDurations]
    rcases List.mem_cons.1 hx with heq | hx
    · rw [heq, hs]
      have hc := hd c (by simp)
      linarith [le_of_eq h1]
    · have hih := ih h2 (fun y hy => hd y (by simp [hy])) x hx
      rw [hs]
      linarith

theorem sortClipsByStartTime_perm (cs : List Clip) :
    List.Perm (sortClipsByStartTime cs) cs :=
  List.perm_insertionSort byStart cs

theorem sortClipsByStartTime_sorted (cs : List Clip) :
    List.Sorted byStart (sortClipsByStartTime cs) :=
  List.sorted_insertionSort byStart cs

theorem sortClipsByStartTime_of_sorted {cs : List Clip}
    (h : List.Sorted byStart cs) : sortClipsByStartTime cs = cs :=
  List.Sorted.insertionSort_eq h

theorem contiguousFrom_get_succ : ∀ {cs : List Clip} {t : ℚ},
    contiguousFrom t cs →
    ∀ i (h : i + 1 < cs.length),
      (cs.get ⟨i + 1, h⟩).startTime =
        (cs.get ⟨i, Nat.lt_of_succ_lt h⟩).startTime +
          (cs.get ⟨i, Nat.lt_of_succ_lt h⟩).duration
  | [], _, _, i, h => by simp at h
  | [_], _, _, i, h => by simp at h
  | c :: d :: rest', t, hct, i, h => by
    obtain ⟨h1, h2, h3⟩ := hct
    cases i with
    | zero =>
      show d.startTime = c.startTime + c.duration
      rw [h1, h2]
    | succ j =>
      exact @contiguousFrom_get_succ (d :: rest') (t + c.duration)
        ⟨h2, h3⟩ j (by simpa using h)

theorem contiguousFrom_gapFree {cs : List Clip} (h : contiguousFrom 0 cs) :
    gapFree cs := by
  constructor
  · intro h0
    cases cs with
    | nil => simp at h0
    | cons c rest => exact h.1
  · exact fun i hi => contiguousFrom_get_succ h i hi

/-- The central repack lemma: whenever all durations are nonnegative,
`reorderClips` produces a list that is contiguous from 0, is its own
sorted-by-`startTime` order, and keeps the identifying fields of the
segments (as a multiset). -/
theorem reorderClips_map_frame (cs : List Clip) :
    List.Perm ((reorderClips cs).map frame) (cs.map frame) := by
  have h1 : (reorderClips cs).map frame = (sortClipsByStartTime cs).map frame :=
    assignStarts_map_frame (sortClipsByStartTime cs) 0
  rw [h1]
  exact (sortClipsByStartTime_perm cs).map frame

theorem reorderClips_spec (cs : List Clip)
    (hd : ∀ c ∈ cs, 0 ≤ c.duration) :
    contiguousFrom 0 (reorderClips cs) ∧
      sortClipsByStartTime (reorderClips cs) = reorderClips cs := by
  have hperm := sortClipsByStartTime_perm cs
  have hd' : ∀ c ∈ sortClipsByStartTime cs, 0 ≤ c.duration := fun c hc =>
    hd c (hperm.mem_iff.1 hc)
  have hcont : contiguousFrom 0 (reorderClips cs) :=
    assignStarts_contiguous _ 0
  have hdur : (reorderClips cs).map (·.duration) =
      (sortClipsByStartTime cs).map (·.duration) :=
    assignStarts_map_duration _ 0
  have hd'' : ∀ c ∈ reorderClips cs, 0 ≤ c.duration := by
    intro c hc
    have hmem : c.duration ∈ (reorderClips cs).map (·.duration) :=
      List.mem_map_of_mem _ hc
    rw [hdur] at hmem
    obtain ⟨y, hy, hyd⟩ := List.mem_map.1 hmem
    rw [← hyd]
    exact hd' y hy
  exact ⟨hcont, sortClipsByStartTime_of_sorted
    (contiguousFrom_sorted hcont hd'')⟩

theorem duration_persists {cs ds : List Clip}
    (hp : List.Perm (ds.map frame) (cs.map frame)) :
    ∀ c ∈ ds, ∃ y ∈ cs, y.duration = c.duration := by
  intro c hc
  have hmem : frame c ∈ cs.map frame :=
    hp.mem_iff.1 (List.mem_map_of_mem _ hc)
  obtain ⟨y, hy, hfy⟩ := List.mem_map.1 hmem
  exact ⟨y, hy, congrArg (fun p => p.2.2.2.1) hfy⟩

theorem wf_reorderClips {cs : List Clip} (hd : ∀ c ∈ cs, 0 < c.duration) :
    Wf (reorderClips cs) := by
  refine ⟨(reorderClips_spec cs (fun c hc => le_of_lt (hd c hc))).1, ?_⟩
  intro c hc
  obtain ⟨y, hy, hyd⟩ := duration_persists (reorderClips_map_frame cs) c hc
  rw [← hyd]
  exact hd y hy

/-- From well-formedness, the claim's conclusion: the clip list sorted by
`startTime` (which is the list itself) is gap- and overlap-free. -/
theorem wf_gapFree_sorted {cs : List Clip} (h : Wf cs) :
    gapFree (sortClipsByStartTime cs) := by
  rw [sortClipsByStartTime_of_sorted
    (contiguousFrom_sorted h.1 (fun c hc => le_of_lt (h.2 c hc)))]
  exact contiguousFrom_gapFree h.1

theorem mem_addClipToTimeline {cs : List Clip} {c x : Clip} :
    x ∈ addClipToTimeline cs c ↔ x ∈ cs ∨ x = c := by
  unfold addClipToTimeline sortClipsByStartTime
  rw [List.mem_insertionSort]
  simp

theorem removeClipFromTimeline_sublist (id : String) :
    ∀ cs : List Clip, List.Sublist (removeClipFromTimeline id cs) cs
  | [] => List.Sublist.slnil
  | c :: rest => by
    unfold removeClipFromTimeline
    by_cases h : (c.id == id) = true
    · rw [if_pos h]
      exact (List.Sublist.refl rest).cons c
    · rw [if_neg h]
      exact (removeClipFromTimeline_sublist id rest).cons₂ c

theorem mem_removeClipFromTimeline {id : String} {cs : List Clip} {x : Clip}
    (h : x ∈ removeClipFromTimeline id cs) : x ∈ cs :=
  (removeClipFromTimeline_sublist id cs).mem h

/-- After removal under unique ids, no clip with the removed id remains. -/
theorem removeClipFromTimeline_not_mem {id : String} :
    ∀ {cs : List Clip}, (cs.map (·.id)).Nodup →
      ∀ x ∈ removeClipFromTimeline id cs, x.id ≠ id := by
  intro cs
  induction cs with
  | nil => intro _ x hx; simp [removeClipFromTimeline] at hx
  | cons c rest ih =>
    intro hnd x hx
    simp only [List.map_cons, List.nodup_cons] at hnd
    unfold removeClipFromTimeline at hx
    by_cases h : (c.id == id) = true
    · rw [if_pos h] at hx
      have hcid : c.id = id := by simpa using h
      intro hxid
      apply hnd.1
      have hxm : x.id ∈ List.map (·.id) rest := List.mem_map_of_mem _ hx
      rwa [hxid, ← hcid] at hxm
    · rw [if_neg h] at hx
      rcases List.mem_cons.1 hx with heq | hx'
      · rw [heq]
        simpa using h
      · exact ih hnd.2 x hx'

theorem sorted_append_singleton {cs : List Clip} {new : Clip}
    (h : List.Sorted byStart cs) (hle : ∀ c ∈ cs, byStart c new) :
    List.Sorted byStart (cs ++ [new]) := by
  refine (List.pairwise_append).2 ⟨h, List.pairwise_singleton _ _, ?_⟩
  intro a ha b hb
  rw [List.mem_singleton.1 hb]
  exact hle a ha

theorem foldl_max_of_contiguous : ∀ {cs : List Clip} {t a : ℚ},
    contiguousFrom t cs → (∀ c ∈ cs, 0 ≤ c.duration) → cs ≠ [] →
    cs.foldl (fun m c => max m (c.startTime + c.duration)) a =
      max a (t + sumDurations cs)
  | [], _, _, _, _, hne => absurd rfl hne
  | c :: rest, t, a, h, hd, _ => by
    obtain ⟨h1, h2⟩ := h
    have hs : sumDurations (c :: rest) = c.duration + sumDurations rest := by
      simp [sumDurations]
    cases rest with
    | nil =>
      simp only [List.foldl_cons, List.foldl_nil, h1, sumDurations,
        List.map_cons, List.map_nil, List.sum_cons, List.sum_nil, add_zero]
    | cons d rest' =>
      have hd' : ∀ x ∈ d :: rest', 0 ≤ x.duration := fun x hx =>
        hd x (by simp [hx])
      have hsum : 0 ≤ sumDurations (d :: rest') := by
        apply List.sum_nonneg
        intro q hq
        obtain ⟨y, hy, rfl⟩ := List.mem_map.1 hq
        exact hd' y hy
      have ihr := @foldl_max_of_contiguous (d :: rest')
        (t + c.duration) (max a (c.startTime + c.duration))
        h2 hd' (by simp)
      rw [List.foldl_cons, ihr, h1, hs, max_assoc,
        max_eq_right (by linarith : t + c.duration ≤
          t + c.duration + sumDurations (d :: rest')), ← add_assoc]

theorem totalDuration_of_wf {cs : List Clip} (h : Wf cs) :
    totalDuration cs = sumDurations cs := by
  by_cases hne : cs = []
  · simp [hne, totalDuration, sumDurations]
  · have hsum : 0 ≤ sumDurations cs := by
      apply List.sum_nonneg
      intro q hq
      obtain ⟨y, hy, rfl⟩ := List.mem_map.1 hq
      exact le_of_lt (h.2 y hy)
    rw [totalDuration, if_neg hne,
      foldl_max_of_contiguous h.1 (fun c hc => le_of_lt (h.2 c hc)) hne,
      zero_add, max_eq_right hsum]

/-- Appending a clip that starts at the pack's total running time to a
packed timeline and repacking leaves the list unchanged up to the plain
append: the repack is the identity here. -/
theorem reorder_append_packed {cs : List Clip} (h : Wf cs) (new : Clip)
    (hstart : new.startTime = sumDurations cs) :
    reorderClips (addClipToTimeline cs new) = cs ++ [new] := by
  have hd0 : ∀ c ∈ cs, 0 ≤ c.duration := fun c hc => le_of_lt (h.2 c hc)
  have hcs : List.Sorted byStart cs := contiguousFrom_sorted h.1 hd0
  have hle : ∀ c ∈ cs, byStart c new := by
    intro c hc
    show c.startTime ≤ new.startTime
    rw [hstart]
    have := contiguousFrom_startTime_le_sum h.1 hd0 c hc
    linarith
  have hsorted : List.Sorted byStart (cs ++ [new]) :=
    sorted_append_singleton hcs hle
  have h1 : addClipToTimeline cs new = cs ++ [new] :=
    sortClipsByStartTime_of_sorted hsorted
  rw [reorderClips, h1, sortClipsByStartTime_of_sorted hsorted,
    assignStarts_append, contiguousFrom_assignStarts_eq h.1]
  simp only [assignStarts, zero_add, ← hstart]

/-- The drop guard refuses any duration that is not a finite strictly
positive number, leaving the timeline untouched. -/
theorem handleDrop_invalid (newId assetId assetName : String) (d : JSNum)
    (cs : List Clip) (h : ¬ ∃ q : ℚ, d = .finite q ∧ 0 < q) :
    handleDrop newId assetId assetName d cs = .invalidDuration cs := by
  cases d with
  | finite q =>
    have hq : ¬ 0 < q := fun hq' => h ⟨q, rfl, hq'⟩
    have hq0 : q ≤ 0 := le_of_not_lt hq
    by_cases hz : q = 0
    · simp [handleDrop, jsTruthy, hz]
    · simp [handleDrop, jsTruthy, jsLe, hz, hq0]
  | nan => simp [handleDrop, jsTruthy]
  | inf => simp [handleDrop, jsTruthy, jsLe, JSNum.isFinite]
  | ninf => simp [handleDrop, jsTruthy, jsLe, JSNum.isFinite]

/-- On a finite positive duration, the drop guard passes and the new
full-length segment is appended at the prior `totalDuration`, followed by a
repack. -/
theorem handleDrop_valid (newId assetId assetName : String) (q : ℚ)
    (hq : 0 < q) (cs : List Clip) :
    handleDrop newId assetId assetName (.finite q) cs =
      .added (reorderClips (addClipToTimeline cs
        { id := newId, clipId := assetId, name := assetName,
          startTime := totalDuration cs, duration := q,
          trimStart := 0, trimEnd := q, track := 0 })) := by
  have h1 : jsTruthy (.finite q) = true := by
    simp [jsTruthy]
    exact ne_of_gt hq
  have h2 : jsLe (.finite q) (.finite 0) = false := by
    simp [jsLe]
    exact hq
  simp [handleDrop, h1, h2, JSNum.isFinite]

theorem wf_handleDrop {cs : List Clip} (hWf : Wf cs)
    (newId assetId assetName : String) (d : JSNum) :
    Wf (handleDrop newId assetId assetName d cs).clips := by
  by_cases h : ∃ q : ℚ, d = .finite q ∧ 0 < q
  · obtain ⟨q, rfl, hq⟩ := h
    rw [handleDrop_valid newId assetId assetName q hq cs]
    show Wf (reorderClips _)
    apply wf_reorderClips
    intro c hc
    rcases mem_addClipToTimeline.1 hc with hc' | hc'
    · exact hWf.2 c hc'
    · rw [hc']
      exact hq
  · rw [handleDrop_invalid newId assetId assetName d cs h]
    exact hWf

theorem wf_removeClip {cs : List Clip} (hWf : Wf cs) (id : String) :
    Wf (removeClip id cs) := by
  apply wf_reorderClips
  intro c hc
  exact hWf.2 c (mem_removeClipFromTimeline hc)

theorem wf_handleClipDrop {cs : List Clip} (hWf : Wf cs)
    (draggedId targetId : String) :
    Wf (handleClipDrop draggedId targetId cs) := by
  unfold handleClipDrop
  by_cases h0 : (draggedId == targetId) = true
  · rw [if_pos h0]
    exact hWf
  · rw [if_neg h0]
    cases hfd : cs.find? (fun c => c.id == draggedId) with
    | none => exact hWf
    | some draggedClip =>
      cases hft : cs.find? (fun c => c.id == targetId) with
      | none => exact hWf
      | some targetClip =>
        apply wf_reorderClips
        intro c hc
        obtain ⟨y, hy, hyc⟩ := List.mem_map.1 hc
        have hdur : c.duration = y.duration := by
          rw [← hyc]
          by_cases hy1 : (y.id == draggedId) = true
          · simp [hy1]
          · by_cases hy2 : (y.id == targetId) = true
            · simp [hy1, hy2]
            · simp [hy1, hy2]
        rw [hdur]
        exact hWf.2 y hy

theorem wf_splitClipAtPlayhead {cs : List Clip} (hWf : Wf cs)
    (id1 id2 : String) (t : ℚ) :
    Wf (splitClipAtPlayhead id1 id2 t cs) := by
  unfold splitClipAtPlayhead
  cases hfd : cs.find? (fun c =>
      decide (c.startTime ≤ t ∧ t < c.startTime + c.duration)) with
  | none => exact hWf
  | some clipToSplit =>
    dsimp only
    by_cases hguard : t - clipToSplit.startTime ≤ MIN_SPLIT_DISTANCE ∨
        clipToSplit.duration - MIN_SPLIT_DISTANCE ≤ t - clipToSplit.startTime
    · rw [if_pos hguard]
      exact hWf
    · rw [if_neg hguard]
      push_neg at hguard
      obtain ⟨hg1, hg2⟩ := hguard
      have hMIN : (0 : ℚ) < MIN_SPLIT_DISTANCE := by norm_num [MIN_SPLIT_DISTANCE]
      apply wf_reorderClips
      intro c hc
      rcases mem_addClipToTimeline.1 hc with hc' | hc'
      · rcases mem_addClipToTimeline.1 hc' with hc'' | hc''
        · exact hWf.2 c (mem_removeClipFromTimeline hc'')
        · rw [hc'']
          show 0 < t - clipToSplit.startTime
          linarith
      · rw [hc']
        show 0 < clipToSplit.duration - (t - clipToSplit.startTime)
        linarith

theorem map_frame_addClip (cs : List Clip) (c : Clip) :
    List.Perm ((addClipToTimeline cs c).map frame) (frame c :: cs.map frame) := by
  have h := (sortClipsByStartTime_perm (cs ++ [c])).map frame
  refine h.trans ?_
  rw [List.map_append]
  exact List.perm_append_singleton (frame c) (cs.map frame)

/-! ## Claim C1 -/

/-- C1: after every timeline mutation operation — insert of a clip
(`handleDrop`), removal (`removeClip`), split (`splitClipAtPlayhead`) and
drag-reorder (`handleClipDrop`), each ending with a repack — the resulting
segment list sorted by `startTime` is gap-free and overlap-free: the first
segment starts at 0 and each next segment starts exactly where the previous
one ends.  Moreover well-formedness is preserved, so the property holds
after each operation of any sequence started from a well-formed (e.g.
empty) timeline. -/
theorem C1_mutations_gap_free (cs : List Clip) (hWf : Wf cs) :
    (∀ newId assetId assetName d,
      gapFree (sortClipsByStartTime (handleDrop newId assetId assetName d cs).clips) ∧
      Wf (handleDrop newId assetId assetName d cs).clips) ∧
    (∀ id, gapFree (sortClipsByStartTime (removeClip id cs)) ∧
      Wf (removeClip id cs)) ∧
    (∀ id1 id2 t, gapFree (sortClipsByStartTime (splitClipAtPlayhead id1 id2 t cs)) ∧
      Wf (splitClipAtPlayhead id1 id2 t cs)) ∧
    (∀ draggedId targetId,
      gapFree (sortClipsByStartTime (handleClipDrop draggedId targetId cs)) ∧
      Wf (handleClipDrop draggedId targetId cs)) := by
  refine ⟨?_, ?_, ?_, ?_⟩
  · intro newId assetId assetName d
    have h := wf_handleDrop hWf newId assetId assetName d
    exact ⟨wf_gapFree_sorted h, h⟩
  · intro id
    have h := wf_removeClip hWf id
    exact ⟨wf_gapFree_sorted h, h⟩
  · intro id1 id2 t
    have h := wf_splitClipAtPlayhead hWf id1 id2 t
    exact ⟨wf_gapFree_sorted h, h⟩
  · intro draggedId targetId
    have h := wf_handleClipDrop hWf draggedId targetId
    exact ⟨wf_gapFree_sorted h, h⟩

/-- Witness for C1 at a concrete packed timeline and a removal. -/
theorem C1_mutations_gap_free_witness :
    Wf sampleTimeline ∧
      gapFree (sortClipsByStartTime (removeClip "a" sampleTimeline)) :=
  ⟨by norm_num [Wf, sampleTimeline, sampleA, sampleB, contiguousFrom],
   ((C1_mutations_gap_free sampleTimeline
      (by norm_num [Wf, sampleTimeline, sampleA, sampleB, contiguousFrom])).2.1
        "a").1⟩

/-! ## Claim C10 -/

/-- C10: repack (`reorderClips`) modifies only each segment's `startTime`:
the multiset of the segments' identifying fields — id, asset reference
(`clipId`), name, duration, `trimStart`, `trimEnd`, track — is exactly
preserved (so the same segments, with the same ids, are present, each with
those fields unchanged). -/
theorem C10_reorderClips_frame_effect (cs : List Clip) :
    List.Perm ((reorderClips cs).map frame) (cs.map frame) :=
  reorderClips_map_frame cs

/-! ## Claim C4 -/

/-- C4: splitting the segment under the playhead at a local offset strictly
between `MIN_SPLIT_DISTANCE` and `duration - MIN_SPLIT_DISTANCE` replaces
it by two segments referencing the same asset whose trim windows
partition the original window and whose durations sum to the original
duration; a split requested within `MIN_SPLIT_DISTANCE` of either edge is a
no-op leaving the segment list unchanged. -/
theorem C4_split_roundtrip (cs : List Clip) (c : Clip) (t : ℚ)
    (id1 id2 : String)
    (hfind : cs.find? (fun x =>
      decide (x.startTime ≤ t ∧ t < x.startTime + x.duration)) = some c) :
    (MIN_SPLIT_DISTANCE < t - c.startTime →
      t - c.startTime < c.duration - MIN_SPLIT_DISTANCE →
      SplitSpec cs c t id1 id2) ∧
    ((t - c.startTime ≤ MIN_SPLIT_DISTANCE ∨
        c.duration - MIN_SPLIT_DISTANCE ≤ t - c.startTime) →
      splitClipAtPlayhead id1 id2 t cs = cs) := by
  constructor
  · intro h1 h2
    have hguard : ¬ (t - c.startTime ≤ MIN_SPLIT_DISTANCE ∨
        c.duration - MIN_SPLIT_DISTANCE ≤ t - c.startTime) := by
      push_neg
      exact ⟨h1, h2⟩
    have heq : splitClipAtPlayhead id1 id2 t cs =
        reorderClips (addClipToTimeline (addClipToTimeline
          (removeClipFromTimeline c.id cs)
          { id := id1, clipId := c.clipId, name := c.name ++ " (1)",
            startTime := c.startTime, duration := t - c.startTime,
            trimStart := c.trimStart,
            trimEnd := c.trimStart + (t - c.startTime), track := c.track })
          { id := id2, clipId := c.clipId, name := c.name ++ " (2)",
            startTime := c.startTime + (t - c.startTime),
            duration := c.duration - (t - c.startTime),
            trimStart := c.trimStart + (t - c.startTime),
            trimEnd := c.trimEnd, track := c.track }) := by
      unfold splitClipAtPlayhead
      rw [hfind]
      dsimp only
      rw [if_neg hguard]
    have hperm : List.Perm ((splitClipAtPlayhead id1 id2 t cs).map frame)
        ((id1, c.clipId, c.name ++ " (1)", t - c.startTime, c.trimStart,
            c.trimStart + (t - c.startTime), c.track) ::
          (id2, c.clipId, c.name ++ " (2)", c.duration - (t - c.startTime),
            c.trimStart + (t - c.startTime), c.trimEnd, c.track) ::
          (removeClipFromTimeline c.id cs).map frame) := by
      rw [heq]
      refine (reorderClips_map_frame _).trans ?_
      refine (map_frame_addClip _ _).trans ?_
      refine (List.Perm.cons _ (map_frame_addClip _ _)).trans ?_
      exact List.Perm.swap _ _ _
    refine ⟨by ring, hperm, ?_⟩
    intro hnd hid1 hid2 x hx hxid
    have hfx : frame x ∈ (splitClipAtPlayhead id1 id2 t cs).map frame :=
      List.mem_map_of_mem _ hx
    have hmem := hperm.mem_iff.1 hfx
    rcases List.mem_cons.1 hmem with h | hmem'
    · have : x.id = id1 := congrArg Prod.fst h
      rw [hxid] at this
      exact hid1 this.symm
    · rcases List.mem_cons.1 hmem' with h | h
      · have : x.id = id2 := congrArg Prod.fst h
        rw [hxid] at this
        exact hid2 this.symm
      · obtain ⟨y, hy, hfy⟩ := List.mem_map.1 h
        have hyid : y.id = x.id := congrArg Prod.fst hfy
        apply removeClipFromTimeline_not_mem hnd y hy
        rw [hyid, hxid]
  · intro hguard
    unfold splitClipAtPlayhead
    rw [hfind]
    dsimp only
    rw [if_pos hguard]

/-- Witness for C4: Scenario B, a 10-second segment split at time 4. -/
theorem C4_split_roundtrip_witness :
    scenarioBTimeline.find? (fun x =>
      decide (x.startTime ≤ 4 ∧ 4 < x.startTime + x.duration)) =
        some scenarioBClip ∧
    SplitSpec scenarioBTimeline scenarioBClip 4 "s1" "s2" :=
  ⟨by norm_num [scenarioBTimeline, scenarioBClip, List.find?],
   (C4_split_roundtrip scenarioBTimeline scenarioBClip 4 "s1" "s2"
      (by norm_num [scenarioBTimeline, scenarioBClip, List.find?])).1
    (by norm_num [scenarioBClip, MIN_SPLIT_DISTANCE])
    (by norm_num [scenarioBClip, MIN_SPLIT_DISTANCE])⟩

/-! ## Claim C6 -/

/-- C6: dropping an asset whose duration is not a finite strictly positive
number is refused (`InvalidDurationError` path) with the timeline
unchanged; on a valid duration the new segment is created with
`startTime = totalDuration`, `trimStart = 0`, `trimEnd = asset.duration`,
appended, and the triggered repack leaves the (packed) timeline plus the
new final segment. -/
theorem C6_insert_validation (newId assetId assetName : String)
    (cs : List Clip) :
    (∀ d : JSNum, (¬ ∃ q : ℚ, d = .finite q ∧ 0 < q) →
      handleDrop newId assetId assetName d cs = .invalidDuration cs) ∧
    (∀ q : ℚ, 0 < q → Wf cs →
      handleDrop newId assetId assetName (.finite q) cs =
        .added (cs ++ [{ id := newId, clipId := assetId, name := assetName,
                         startTime := totalDuration cs, duration := q,
                         trimStart := 0, trimEnd := q, track := 0 }]) ∧
      Wf (cs ++ [{ id := newId, clipId := assetId, name := assetName,
                   startTime := totalDuration cs, duration := q,
                   trimStart := 0, trimEnd := q, track := 0 }])) := by
  constructor
  · exact fun d h => handleDrop_invalid newId assetId assetName d cs h
  · intro q hq hWf
    have hstart : ({ id := newId, clipId := assetId, name := assetName,
                     startTime := totalDuration cs, duration := q,
                     trimStart := 0, trimEnd := q, track := 0 } :
        Clip).startTime = sumDurations cs :=
      totalDuration_of_wf hWf
    have hpack := reorder_append_packed hWf _ hstart
    have hval := handleDrop_valid newId assetId assetName q hq cs
    have hwf' : Wf (reorderClips (addClipToTimeline cs
        { id := newId, clipId := assetId, name := assetName,
          startTime := totalDuration cs, duration := q, trimStart := 0,
          trimEnd := q, track := 0 })) := by
      apply wf_reorderClips
      intro x hx
      rcases mem_addClipToTimeline.1 hx with h | h
      · exact hWf.2 x h
      · rw [h]
        exact hq
    rw [hpack] at hwf'
    exact ⟨by rw [hval, hpack], hwf'⟩

/-- Witness for C6: a NaN duration is refused; a 5-second asset lands at
the end of the packed sample timeline. -/
theorem C6_insert_validation_witness :
    (handleDrop "n1" "asset" "New" JSNum.nan sampleTimeline =
      .invalidDuration sampleTimeline) ∧
    (handleDrop "n1" "asset" "New" (.finite 5) sampleTimeline =
      .added (sampleTimeline ++ [{ id := "n1", clipId := "asset",
                                   name := "New",
                                   startTime := totalDuration sampleTimeline,
                                   duration := 5, trimStart := 0,
                                   trimEnd := 5, track := 0 }]) ∧
      Wf (sampleTimeline ++ [{ id := "n1", clipId := "asset", name := "New",
                               startTime := totalDuration sampleTimeline,
                               duration := 5, trimStart := 0, trimEnd := 5,
                               track := 0 }])) :=
  ⟨(C6_insert_validation "n1" "asset" "New" sampleTimeline).1 JSNum.nan
      (by rintro ⟨q, h, -⟩; exact JSNum.noConfusion h),
   (C6_insert_validation "n1" "asset" "New" sampleTimeline).2 5 (by norm_num)
      (by norm_num [Wf, sampleTimeline, sampleA, sampleB, contiguousFrom])⟩

/-! ## Claim C2 (corrected) -/

/-- Counterexample to C2: feeding the events 50 then 10 to the running
export store leaves the displayed percentage at 10 — the event carrying the
smaller value *does* decrease the displayed percentage, because
`updateProgress` clamps only into `[0, 100]` and keeps no monotonic
maximum. -/
theorem C2_progress_monotonic_counterexample :
    (applyProgressEvents (startExport "Export" false initialExportState)
        [50]).exportProgress = 50 ∧
    (applyProgressEvents (startExport "Export" false initialExportState)
        [50, 10]).exportProgress = 10 ∧
    (applyProgressEvents (startExport "Export" false initialExportState)
        [50, 10]).exportProgress <
      (applyProgressEvents (startExport "Export" false initialExportState)
        [50]).exportProgress := by
  refine ⟨?_, ?_, ?_⟩ <;>
    norm_num [applyProgressEvents, updateProgress, startExport,
      initialExportState]

/-- C2 as amended: the displayed percentage after any event sequence ending
in event `p` is `p` clamped into `[0, 100]`, independent of every earlier
event — in particular it is bounded but not monotone: a later event smaller
than the currently displayed percentage lowers the display to its clamped
value. -/
theorem C2_progress_clamped_last_event (s : ExportState) (events : List ℚ)
    (p : ℚ) :
    (applyProgressEvents s (events ++ [p])).exportProgress =
        max 0 (min p 100) ∧
    0 ≤ (applyProgressEvents s (events ++ [p])).exportProgress ∧
    (applyProgressEvents s (events ++ [p])).exportProgress ≤ 100 := by
  have h : (applyProgressEvents s (events ++ [p])).exportProgress =
      max 0 (min p 100) := by
    unfold applyProgressEvents
    rw [List.foldl_append]
    simp [updateProgress]
  refine ⟨h, ?_, ?_⟩
  · rw [h]
    exact le_max_left _ _
  · rw [h]
    exact max_le (by norm_num) (min_le_right _ _)

/-! ## Claim C3 (corrected) -/

/-- Counterexample to C3: with a job running at 50% under the name
"Job A", a second `startExport` is not rejected — there is no
`JobAlreadyRunningError` anywhere in the store — and it mutates the
running job's state: progress is reset to 0 and the job name is replaced,
so the state is not left unchanged. -/
theorem C3_single_job_counterexample :
    (updateProgress 50 (startExport "Job A" false
        initialExportState)).isExporting = true ∧
    (updateProgress 50 (startExport "Job A" false
        initialExportState)).exportProgress = 50 ∧
    (startExport "Job B" false (updateProgress 50 (startExport "Job A" false
        initialExportState))).exportProgress = 0 ∧
    (startExport "Job B" false (updateProgress 50 (startExport "Job A" false
        initialExportState))).exportJobName = "Job B" ∧
    startExport "Job B" false (updateProgress 50 (startExport "Job A" false
        initialExportState)) ≠
      updateProgress 50 (startExport "Job A" false initialExportState) := by
  refine ⟨rfl, ?_, ?_, rfl, ?_⟩
  · norm_num [updateProgress, startExport, initialExportState]
  · norm_num [updateProgress, startExport, initialExportState]
  · intro h
    have h50 := congrArg ExportState.exportProgress h
    norm_num [updateProgress, startExport, initialExportState] at h50

/-- C3 as amended: a second export start request while a job is running is
neither rejected nor queued: `startExport` unconditionally reinitializes
the job state — `isExporting` stays true, progress resets to 0, the error
clears, the output path clears, and the job name and background flag are
replaced — overwriting the running job's state. -/
theorem C3_second_start_overwrites (s : ExportState) (jobName : String)
    (background : Bool) (_hrun : s.isExporting = true)
    (hprog : s.exportProgress ≠ 0) :
    (startExport jobName background s).isExporting = true ∧
    (startExport jobName background s).exportProgress = 0 ∧
    (startExport jobName background s).exportError = none ∧
    (startExport jobName background s).lastExportPath = none ∧
    (startExport jobName background s).exportJobName = jobName ∧
    startExport jobName background s ≠ s := by
  refine ⟨rfl, rfl, rfl, rfl, rfl, ?_⟩
  intro h
  exact hprog (congrArg ExportState.exportProgress h).symm

/-- Witness for the amended C3 at a concrete running state. -/
theorem C3_second_start_overwrites_witness :
    ((updateProgress 50 (startExport "Job A" false
        initialExportState)).isExporting = true ∧
      (updateProgress 50 (startExport "Job A" false
        initialExportState)).exportProgress ≠ 0) ∧
    startExport "Job B" true (updateProgress 50 (startExport "Job A" false
        initialExportState)) ≠
      updateProgress 50 (startExport "Job A" false initialExportState) :=
  ⟨⟨rfl, by norm_num [updateProgress, startExport, initialExportState]⟩,
   (C3_second_start_overwrites
      (updateProgress 50 (startExport "Job A" false initialExportState))
      "Job B" true rfl
      (by norm_num [updateProgress, startExport, initialExportState])).2.2.2.2.2⟩

/-! ## Claim C5 (corrected) -/

/-- Counterexample to C5: a segment contributing `Infinity` (or `NaN`) is
not excluded from the max — it poisons the aggregate, so `totalDuration`
is not always finite. -/
theorem C5_totalDuration_finite_counterexample :
    totalDurationJS [{ startTime := .finite 0, duration := .inf }] =
        JSNum.inf ∧
    totalDurationJS [{ startTime := .finite 0, duration := .nan }] =
        JSNum.nan ∧
    totalDurationJS [{ startTime := .finite 0, duration := .inf }] ≠
      JSNum.finite 0 := by
  refine ⟨rfl, rfl, ?_⟩
  intro h
  exact JSNum.noConfusion h

/-- C5 as amended: `totalDuration` of an empty timeline is 0, and on a
timeline whose segments all carry finite values it equals the finite fold
of `max` over 0 and the segment ends (`startTime + duration`); but
non-finite segments are not excluded — as the counterexample shows, they
poison the aggregate. -/
theorem C5_totalDuration_finite_on_finite (cs : List Clip) :
    totalDurationJS [] = JSNum.finite 0 ∧
    totalDurationJS (cs.map Clip.toJSClip) =
      JSNum.finite (totalDuration cs) := by
  refine ⟨rfl, ?_⟩
  by_cases hne : cs = []
  · subst hne
    rfl
  · have hmap : cs.map Clip.toJSClip ≠ [] := by
      simpa using hne
    rw [totalDurationJS, if_neg hmap, totalDuration, if_neg hne]
    have hfold : ∀ (l : List Clip) (m : ℚ),
        (l.map Clip.toJSClip).foldl
          (fun m c => jsMax m (jsAdd c.startTime c.duration)) (.finite m) =
        JSNum.finite (l.foldl
          (fun m c => max m (c.startTime + c.duration)) m) := by
      intro l
      induction l with
      | nil => intro m; rfl
      | cons c rest ih =>
        intro m
        simp only [List.map_cons, List.foldl_cons]
        exact ih (max m (c.startTime + c.duration))
    exact hfold cs 0

/-! ## Claim C7 -/

theorem mem_uniqueInOrder {x : String} {l : List String} (h : x ∈ l) :
    x ∈ uniqueInOrder l := by
  suffices H : ∀ (l : List String) (acc : List String), x ∈ l ∨ x ∈ acc →
      x ∈ l.foldl (fun acc p => if p ∈ acc then acc else acc ++ [p]) acc by
    exact H l [] (Or.inl h)
  intro l
  induction l with
  | nil =>
    intro acc h'
    rcases h' with h' | h'
    · simp at h'
    · simpa using h'
  | cons p rest ih =>
    intro acc h'
    simp only [List.foldl_cons]
    apply ih
    rcases h' with h' | h'
    · rcases List.mem_cons.1 h' with heq | h''
      · right
        rw [heq]
        by_cases hp : p ∈ acc
        · simp [hp]
        · simp [hp]
      · exact Or.inl h''
    · right
      by_cases hp : p ∈ acc
      · simpa [hp] using h'
      · simp [hp, h']

theorem exists_find?_eq_some {α : Type} {p : α → Bool} :
    ∀ {l : List α}, (∃ x ∈ l, p x = true) → ∃ a, l.find? p = some a
  | [], ⟨x, hx, _⟩ => absurd hx (List.not_mem_nil x)
  | b :: l, ⟨x, hx, hpx⟩ => by
    by_cases hb : p b = true
    · exact ⟨b, List.find?_cons_of_pos _ hb⟩
    · rcases List.mem_cons.1 hx with heq | hx'
      · rw [heq] at hpx
        exact absurd hpx hb
      · obtain ⟨a, ha⟩ := exists_find?_eq_some ⟨x, hx', hpx⟩
        refine ⟨a, ?_⟩
        rw [List.find?_cons_of_neg _ hb]
        exact ha

/-- C7: when the output path equals, after lower-casing and path
normalization, the source file path of any clip in the export payload, the
`ffmpeg:exportTimeline` handler rejects with the output-conflict error and
spawns no subprocess (neither the per-file probes nor the transcoder). -/
theorem C7_output_conflict (pathNormalize : String → String)
    (hasAudio : String → Bool) (clips : List ExportClip) (outputPath : String)
    (w h fps : Nat) (c : ExportClip) (hc : c ∈ clips)
    (hconf : pathNormalize c.sourceFilePath.toLower =
      pathNormalize outputPath.toLower) :
    (∃ f, exportTimeline pathNormalize hasAudio clips outputPath w h fps =
      .outputConflict f) ∧
    (exportTimeline pathNormalize hasAudio clips outputPath w h fps).spawned =
      [] := by
  have hmem : c.sourceFilePath ∈ uniqueInOrder (clips.map (·.sourceFilePath)) :=
    mem_uniqueInOrder (List.mem_map_of_mem _ hc)
  have hfind : ∃ a, (uniqueInOrder (clips.map (·.sourceFilePath))).find?
      (fun inputFile => pathNormalize inputFile.toLower ==
        pathNormalize outputPath.toLower) = some a := by
    apply exists_find?_eq_some
    exact ⟨c.sourceFilePath, hmem, by simp [hconf]⟩
  obtain ⟨a, ha⟩ := hfind
  unfold exportTimeline
  dsimp only
  rw [ha]
  exact ⟨⟨a, rfl⟩, rfl⟩

/-- Witness for C7 with the identity as path normalization and a concrete
single-clip payload whose source path collides with the output path. -/
theorem C7_output_conflict_witness :
    ({ sourceFilePath := "clip.mp4", trimStart := 0, trimEnd := 2,
       duration := 2 } : ExportClip) ∈
      [({ sourceFilePath := "clip.mp4", trimStart := 0,
          trimEnd := 2, duration := 2 } : ExportClip)] ∧
    (exportTimeline id (fun _ => true)
        [{ sourceFilePath := "clip.mp4", trimStart := 0,
           trimEnd := 2, duration := 2 }]
        "clip.mp4" 1920 1080 30).spawned = [] :=
  ⟨List.mem_singleton.2 rfl,
   (C7_output_conflict id (fun _ => true)
      [{ sourceFilePath := "clip.mp4", trimStart := 0,
         trimEnd := 2, duration := 2 }]
      "clip.mp4" 1920 1080 30
      { sourceFilePath := "clip.mp4", trimStart := 0, trimEnd := 2,
        duration := 2 }
      (List.mem_singleton.2 rfl) rfl).2⟩

/-! ## Claim C9 -/

/-- Filtering the per-clip parts keeps exactly the one audio chain each
clip contributes. -/
theorem filter_audio_flatMap (uniqueFiles : List String)
    (hasAudio : String → Bool) (w h fps : Nat) :
    ∀ l : List (Nat × ExportClip),
      (l.flatMap (fun p =>
        clipFilterParts uniqueFiles hasAudio w h fps p.2 p.1)).filter
          FilterPart.isAudio =
        l.map (fun p =>
          if hasAudio p.2.sourceFilePath then
            FilterPart.audioTrim (uniqueFiles.indexOf p.2.sourceFilePath)
              p.2.trimStart p.2.trimEnd 48000 true p.1
          else
            FilterPart.audioSilent 48000 true p.2.duration p.1)
  | [] => rfl
  | p :: l => by
    rw [List.flatMap_cons, List.filter_append,
      filter_audio_flatMap uniqueFiles hasAudio w h fps l, List.map_cons]
    by_cases hp : hasAudio p.2.sourceFilePath
    · simp [clipFilterParts, FilterPart.isAudio, hp]
    · simp [clipFilterParts, FilterPart.isAudio, hp]

/-- C9: every clip contributes exactly one audio chain to the plan, and a
clip whose source has no audio stream contributes a synthesized silent
stream (48000 Hz, stereo) lasting exactly the segment's duration
`trimEnd - trimStart` — not the source asset's full duration. -/
theorem C9_silent_audio_sized_to_segment (hasAudio : String → Bool)
    (w h fps : Nat) (clips : List ExportClip) (i : Nat) (clip : ExportClip)
    (hi : clips[i]? = some clip)
    (hna : hasAudio clip.sourceFilePath = false)
    (hdur : clip.duration = clip.trimEnd - clip.trimStart) :
    (audioParts (buildFilterParts hasAudio w h fps clips)).length =
      clips.length ∧
    (audioParts (buildFilterParts hasAudio w h fps clips))[i]? =
      some (FilterPart.audioSilent 48000 true
        (clip.trimEnd - clip.trimStart) i) := by
  have hnotconcat :
      (([FilterPart.concat clips.length] : List FilterPart).filter
        FilterPart.isAudio) = [] := rfl
  have heq : audioParts (buildFilterParts hasAudio w h fps clips) =
      clips.enum.map (fun p =>
        if hasAudio p.2.sourceFilePath then
          FilterPart.audioTrim
            ((uniqueInOrder (clips.map (·.sourceFilePath))).indexOf
              p.2.sourceFilePath)
            p.2.trimStart p.2.trimEnd 48000 true p.1
        else
          FilterPart.audioSilent 48000 true p.2.duration p.1) := by
    unfold audioParts buildFilterParts
    rw [List.filter_append, hnotconcat, List.append_nil,
      filter_audio_flatMap]
  constructor
  · rw [heq, List.length_map, List.enum_length]
  · rw [heq, List.getElem?_map, List.getElem?_enum, hi]
    simp [hna, hdur]

/-- Witness for C9: a two-clip export where the second clip's source has no
audio; its silent stream is sized 2 seconds (its trim window), not the
10-second source duration. -/
theorem C9_silent_audio_sized_to_segment_witness :
    ([({ sourceFilePath := "a.mp4", trimStart := 0, trimEnd := 3,
         duration := 3 } : ExportClip),
      ({ sourceFilePath := "b.mp4", trimStart := 4, trimEnd := 6,
         duration := 2 } : ExportClip)][1]? =
      some { sourceFilePath := "b.mp4", trimStart := 4, trimEnd := 6,
             duration := 2 }) ∧
    (audioParts (buildFilterParts (fun s => s == "a.mp4") 1920 1080 30
        [{ sourceFilePath := "a.mp4", trimStart := 0, trimEnd := 3,
           duration := 3 },
         { sourceFilePath := "b.mp4", trimStart := 4, trimEnd := 6,
           duration := 2 }]))[1]? =
      some (FilterPart.audioSilent 48000 true 2 1) :=
  ⟨rfl,
   by
    have h := (C9_silent_audio_sized_to_segment (fun s => s == "a.mp4")
      1920 1080 30
      [{ sourceFilePath := "a.mp4", trimStart := 0, trimEnd := 3,
         duration := 3 },
       { sourceFilePath := "b.mp4", trimStart := 4, trimEnd := 6,
         duration := 2 }]
      1
      { sourceFilePath := "b.mp4", trimStart := 4, trimEnd := 6,
        duration := 2 }
      rfl (by decide) (by norm_num)).2
    rw [h]
    norm_num⟩

/-! ## Claim C8 -/

theorem currentTimelineClip_eq (clips : List Clip) (s : PlaybackState)
    (j : Nat) (clip : Clip) (hidx : s.currentClipIndex = (j : Int))
    (hclip : clips[j]? = some clip) :
    currentTimelineClip clips s = some clip := by
  unfold currentTimelineClip
  rw [hidx, if_neg (by omega : ¬ ((j : Int) = -1))]
  simpa using hclip

theorem loadCurrentClip_eq (clips : List Clip) (sources : List SourceClip)
    (s : PlaybackState) (j : Nat) (clip : Clip) (src : SourceClip)
    (hidx : s.currentClipIndex = (j : Int))
    (hclip : clips[j]? = some clip)
    (hsrc : getClipById sources clip.clipId = some src) :
    loadCurrentClip clips sources s =
      { s with
        isLoadingClip := true
        currentVideoSource := some src.path
        currentVideoStartTime :=
          clip.trimStart + max 0 (s.currentTime - clip.startTime)
        currentVideoEndTime := clip.trimEnd } := by
  unfold loadCurrentClip
  rw [currentTimelineClip_eq clips s j clip hidx hclip]
  dsimp only
  rw [hsrc]

theorem advanceToNextClip_step (clips : List Clip)
    (sources : List SourceClip) (s : PlaybackState) (j : Nat) (next : Clip)
    (src : SourceClip) (hidx : s.currentClipIndex = (j : Int))
    (hnext : clips[j + 1]? = some next)
    (hsrc : getClipById sources next.clipId = some src) :
    advanceToNextClip clips sources s =
      { s with
        currentClipIndex := ((j + 1 : Nat) : Int)
        currentTime := next.startTime
        isLoadingClip := true
        currentVideoSource := some src.path
        currentVideoStartTime := next.trimStart
        currentVideoEndTime := next.trimEnd } := by
  have hlt : j + 1 < clips.length := (List.getElem?_eq_some.1 hnext).1
  unfold advanceToNextClip
  rw [hidx]
  rw [if_neg (show ¬ ((j : Int) + 1 ≥ (clips.length : Int)) by omega)]
  have h1 : ((j : Int) + 1) = ((j + 1 : Nat) : Int) := by omega
  rw [h1]
  have htn : (((j + 1 : Nat) : Int)).toNat = j + 1 := by omega
  rw [htn, hnext]
  dsimp only
  rw [loadCurrentClip_eq clips sources
    { s with currentClipIndex := ((j + 1 : Nat) : Int),
             currentTime := next.startTime }
    (j + 1) next src rfl hnext hsrc]
  simp

theorem advanceToNextClip_end (clips : List Clip)
    (sources : List SourceClip) (s : PlaybackState) (j : Nat)
    (hidx : s.currentClipIndex = (j : Int))
    (hlen : clips.length ≤ j + 1) :
    advanceToNextClip clips sources s = stopPlayback s := by
  unfold advanceToNextClip
  rw [hidx]
  rw [if_pos (show (j : Int) + 1 ≥ (clips.length : Int) by omega)]

/-- C8: while playing clip `i` (state consistent: not loading, video end
bound set to the clip's `trimEnd`), a source-time report at or past
`trimEnd - EPSILON` cuts away — with a next segment present (and its
source asset known), the coordinator advances to it, sets the current time
to its `startTime`, the source window to `[trimStart, trimEnd]`, and keeps
playing; with no next segment, playback stops and the index resets to the
sentinel `-1`.  A report below the threshold merely maps source time to
timeline time as `startTime + (sourceTime - trimStart)`. -/
theorem C8_playback_cutaway (clips : List Clip) (sources : List SourceClip)
    (s : PlaybackState) (i : Nat) (c : Clip) (videoTime : ℚ)
    (hplay : s.isPlaying = true)
    (hidx : s.currentClipIndex = (i : Int))
    (hclip : clips[i]? = some c)
    (hload : s.isLoadingClip = false)
    (hend : s.currentVideoEndTime = c.trimEnd) :
    (videoTime ≥ c.trimEnd - EPSILON →
      (∀ next src, clips[i + 1]? = some next →
        getClipById sources next.clipId = some src →
        updateTime clips sources videoTime s =
          { s with
            currentTime := next.startTime
            currentClipIndex := ((i + 1 : Nat) : Int)
            isLoadingClip := true
            currentVideoSource := some src.path
            currentVideoStartTime := next.trimStart
            currentVideoEndTime := next.trimEnd }) ∧
      (clips.length ≤ i + 1 →
        updateTime clips sources videoTime s =
          { s with
            currentTime := c.startTime + (videoTime - c.trimStart)
            isPlaying := false
            currentClipIndex := -1
            currentVideoSource := none })) ∧
    (videoTime < c.trimEnd - EPSILON →
      updateTime clips sources videoTime s =
        { s with currentTime := c.startTime + (videoTime - c.trimStart) }) := by
  have hcur : currentTimelineClip clips s = some c :=
    currentTimelineClip_eq clips s i c hidx hclip
  constructor
  · intro hge
    have hcond : videoTime ≥ s.currentVideoEndTime - EPSILON := by
      rw [hend]
      exact hge
    have hstep : updateTime clips sources videoTime s =
        advanceToNextClip clips sources
          { s with currentTime := c.startTime + (videoTime - c.trimStart) } := by
      unfold updateTime
      rw [hplay, hcur]
      simp only [Bool.not_true, Bool.false_eq_true, if_false, hload]
      rw [if_pos hcond]
    constructor
    · intro next src hnext hsrc
      rw [hstep, advanceToNextClip_step clips sources
        { s with currentTime := c.startTime + (videoTime - c.trimStart) }
        i next src hidx hnext hsrc]
    · intro hlen
      rw [hstep, advanceToNextClip_end clips sources
        { s with currentTime := c.startTime + (videoTime - c.trimStart) }
        i hidx hlen]
      rfl
  · intro hlt
    have hcond : ¬ (videoTime ≥ s.currentVideoEndTime - EPSILON) := by
      rw [hend]
      exact not_le.2 hlt
    unfold updateTime
    rw [hplay, hcur]
    simp only [Bool.not_true, Bool.false_eq_true, if_false, hload]
    rw [if_neg hcond]

/-- Witness for C8: playing the first sample clip, a report at 4.99s (past
`trimEnd - EPSILON = 4.95`) cuts away to the second clip. -/
theorem C8_playback_cutaway_witness :
    updateTime sampleTimeline sampleSources (499/100) samplePlayback =
      { samplePlayback with
        currentTime := sampleB.startTime
        currentClipIndex := ((0 + 1 : Nat) : Int)
        isLoadingClip := true
        currentVideoSource := some "b.mp4"
        currentVideoStartTime := sampleB.trimStart
        currentVideoEndTime := sampleB.trimEnd } :=
  ((C8_playback_cutaway sampleTimeline sampleSources samplePlayback 0 sampleA
      (499/100) rfl rfl rfl rfl rfl).1
    (by norm_num [sampleA, EPSILON])).1 sampleB
    { id := "srcB", path := "b.mp4" } rfl rfl

end StarForge
